import Mathlib

/-!
Shallow embedding of the `file-hashing` Rust library (CryptoGladi/file-hashing),
covering `src/encoding.rs`, `src/file.rs`, `src/folder.rs` and `src/fs.rs`.

Modelling decisions, each tied to the source:

* The hash primitive is the trait object `HashType : DynDigest + Clone` of the
  Rust code.  It is external to the library, so we model it as an arbitrary
  digest function `DigestPrim` over the byte stream fed so far, and the
  incremental accumulator (`HashState`) as the list of bytes fed via `update`
  (`update` appends, `clone` copies the value, finalize applies the digest).
* Bytes are `Nat` (their numeric value; real bytes are < 256, but nothing in
  the library depends on that bound).
* A file (`FileModel`) is what the OS hands the library: either `File::open`
  fails with an error, or open succeeds and the subsequent `read` calls yield
  a script of results — each read returns a chunk of bytes (empty = EOF) or an
  I/O error.  Reads past the end of the script return 0 bytes (EOF), as a real
  regular file does.
* Paths are opaque identifiers (`Nat`); a filesystem is a map from path to
  `FileModel`.
* `rayon::ThreadPool::install(op)` executes `op` on the pool synchronously and
  returns its result, so in `get_hash_files` the loop
  `jobs.push(pool.install(|| ...))` runs each per-file closure to completion,
  in list order, before the next iteration; `num_threads` never influences the
  result.  The embedding therefore threads the shared `hash` accumulator
  through the jobs sequentially and carries `num_threads` as an unused
  parameter, exactly reflecting this control flow.
* The `.unwrap()` on `normal_file.metadata()` in `fs.rs` can panic; functions
  that can reach that panic return `Option`, with `none` for the panic.
-/

namespace FileHashing

/-- I/O error kinds that the library can observe or produce
(`std::io::ErrorKind`); `other` covers all remaining kinds. -/
inductive IOErr where
  | notFound
  | permissionDenied
  | invalidInput
  | other (code : Nat)
deriving DecidableEq, Repr

/-- The `ProgressInfo` enum from `lib.rs`: `Yield(u64)` with the running done-count, or
`Error(IOError)` for a failed file. -/
inductive ProgressInfo where
  | Yield (done_files : Nat)
  | Error (e : IOErr)
deriving DecidableEq, Repr

/-- The external incremental-hash primitive (`DynDigest`), abstracted as the
digest it assigns to the full byte stream fed since creation. -/
structure DigestPrim where
  digest : List Nat → List Nat

/-- The accumulator state of an incremental hash object: the bytes fed so far
via `update`. -/
abbrev HashState := List Nat

/-- Model of `DynDigest::update`: append bytes to the accumulator. -/
def update (h : HashState) (bs : List Nat) : HashState := h ++ bs

/-- Model of `Clone::clone` on the hash object: an independent copy with equal state. -/
def clone (h : HashState) : HashState := h

/-- Lowercase hex encoding of a byte list (`data_encoding::HEXLOWER.encode`). -/
def hexLower (bs : List Nat) : String :=
  String.mk ((bs.map (fun b => [Nat.digitChar (b / 16 % 16), Nat.digitChar (b % 16)])).flatten)

/-- Model of `str::as_bytes` on a hex string: the code points of its characters
(hex output is ASCII, where code point = byte value). -/
def strBytes (s : String) : List Nat := s.toList.map Char.toNat

/-- Embedding of `encoding::get_lowerhex`: clone the hash object, finalize the boxed clone,
hex-encode the digest (`encoding.rs` lines 6-10). -/
def get_lowerhex (D : DigestPrim) (h : HashState) : String :=
  hexLower (D.digest (clone h))

/-- The call-level view of `get_lowerhex(hash: &mut HashType)`: the returned
string together with the state the `&mut`-referenced object holds after the
call (the body reads the object only through `clone`). -/
def get_lowerhex_call (D : DigestPrim) (h : HashState) : String × HashState :=
  (hexLower (D.digest (clone h)), h)

/-- One result of `file.read(&mut buf)`: a chunk of `i` bytes (empty = EOF),
or an I/O error. -/
inductive ReadStep where
  | chunk (bs : List Nat)
  | readErr (e : IOErr)
deriving DecidableEq, Repr

/-- A file as the library observes it: `File::open` fails, or open succeeds
and reading follows the given script (reads past the script's end return 0
bytes, i.e. EOF). -/
inductive FileModel where
  | openErr (e : IOErr)
  | reads (rs : List ReadStep)
deriving DecidableEq, Repr

/-- Opaque file path; the library only passes paths through to the OS. -/
abbrev Path := Nat

/-- The filesystem collaborator: what opening each path yields. -/
abbrev FS := Path → FileModel

/-- The `loop` of `get_hash_file` (`file.rs` lines 33-40): read a chunk,
propagate a read error (leaving the partial updates in the accumulator),
feed the chunk via `update`, and on a 0-byte read return the lowercase hex
of the accumulator. -/
def readLoop (D : DigestPrim) : List ReadStep → HashState → Except IOErr String × HashState
  | [], h => (Except.ok (get_lowerhex D h), h)
  | ReadStep.chunk bs :: rest, h =>
    let h1 := update h bs
    if bs = [] then (Except.ok (get_lowerhex D h1), h1) else readLoop D rest h1
  | ReadStep.readErr e :: _, h => (Except.error e, h)

/-- Embedding of `get_hash_file` (`file.rs` lines 22-41): open the file (propagating an
open error with the accumulator untouched), then stream its chunks through
the accumulator and return the hex digest.  The pair's second component is
the state of the `&mut hash` argument after the call. -/
def get_hash_file (D : DigestPrim) (file : FileModel) (h : HashState) :
    Except IOErr String × HashState :=
  match file with
  | FileModel.openErr e => (Except.error e, h)
  | FileModel.reads rs => readLoop D rs h

/-- One per-file job of `get_hash_files` (`file.rs` lines 105-109): hash the
file, then feed the resulting hex string's bytes back into the shared
accumulator; on error the partial updates remain. -/
def runJob (D : DigestPrim) (file : FileModel) (h : HashState) :
    Except IOErr Unit × HashState :=
  match get_hash_file D file h with
  | (Except.ok s, h1) => (Except.ok (), update h1 (strBytes s))
  | (Except.error e, h1) => (Except.error e, h1)

/-- The job-submission loop of `get_hash_files` (`file.rs` lines 104-110):
`pool.install` runs each closure synchronously, so the jobs execute one at a
time in list order over the shared accumulator. -/
def runJobs (D : DigestPrim) (fs : FS) : List Path → HashState →
    List (Except IOErr Unit) × HashState
  | [], h => ([], h)
  | p :: rest, h =>
    ((runJob D (fs p) h).1 :: (runJobs D fs rest (runJob D (fs p) h).2).1,
     (runJobs D fs rest (runJob D (fs p) h).2).2)

/-- The progress loop of `get_hash_files` (`file.rs` lines 112-120):
`done_files` increments for every job, then `Error e` is reported for a
failed job and `Yield done_files` for a successful one. -/
def progressLoop : List (Except IOErr Unit) → Nat → List ProgressInfo
  | [], _ => []
  | j :: rest, done_files =>
    let d := done_files + 1
    (match j with
     | Except.error e => ProgressInfo.Error e
     | Except.ok _ => ProgressInfo.Yield d) :: progressLoop rest d

/-- Embedding of `get_hash_files` (`file.rs` lines 84-123).  Returns the call's result, the
final state of the shared `&mut hash` accumulator, and the list of
`ProgressInfo` events passed to `progress`, in order.  `num_threads` only
sizes the rayon pool; `pool.install` runs jobs synchronously, so it does not
influence any component. -/
def get_hash_files (D : DigestPrim) (fs : FS) (paths : List Path) (h : HashState)
    (num_threads : Nat) : Except IOErr String × HashState × List ProgressInfo :=
  if paths = [] then (Except.error IOErr.invalidInput, h, [])
  else
    (Except.ok (get_lowerhex D (runJobs D fs paths h).2),
     (runJobs D fs paths h).2,
     progressLoop (runJobs D fs paths h).1 0)

/-- File-type information of `DirEntry::metadata()`; `is_file()` is true
exactly for `regular`. -/
inductive FileKind where
  | regular
  | directory
  | symlink
  | special
deriving DecidableEq, Repr

/-- The `is_file()` predicate of `Metadata`. -/
def FileKind.is_file : FileKind → Bool
  | FileKind.regular => true
  | _ => false

/-- A successfully yielded `walkdir::DirEntry`: its path, and the result of
the subsequent `metadata()` call (which can fail, e.g. when the file was
deleted between the walk and the query). -/
structure DirEntry where
  path : Path
  meta : Except IOErr FileKind

/-- One item produced by the `walkdir` iterator: a directory entry, or a
traversal error (`walkdir::Error`, modelled by its error kind). -/
abbrev WalkResult := Except IOErr DirEntry

/-- Embedding of `fs::get_all_file_from_folder` (`fs.rs` lines 5-19) applied to the walk's
item sequence: drop traversal errors (`filter_map(|file| file.ok())`), keep
entries whose `metadata().unwrap().is_file()` holds, and map to paths.
`metadata()` is unwrapped, so a metadata error panics: modelled as `none`. -/
def get_all_file_from_folder : List WalkResult → Option (List Path)
  | [] => some []
  | Except.error _ :: rest => get_all_file_from_folder rest
  | Except.ok entry :: rest =>
    match entry.meta with
    | Except.error _ => none
    | Except.ok k =>
      match get_all_file_from_folder rest with
      | none => none
      | some tail => some (if k.is_file then entry.path :: tail else tail)

/-- Embedding of `get_hash_folder` (`folder.rs` lines 33-49): collect the folder's files,
then run `get_hash_files` on them; `none` when the collection panics. -/
def get_hash_folder (D : DigestPrim) (fs : FS) (walk : List WalkResult)
    (h : HashState) (num_threads : Nat) :
    Option (Except IOErr String × HashState × List ProgressInfo) :=
  match get_all_file_from_folder walk with
  | none => none
  | some paths => some (get_hash_files D fs paths h num_threads)

/-- The collection loop of `get_hash_folders` (`folder.rs` lines 88-92):
append each folder's file list in root order; a panic in any collection
aborts the whole call. -/
def collectFolders : List (List WalkResult) → Option (List Path)
  | [] => some []
  | d :: rest =>
    match get_all_file_from_folder d with
    | none => none
    | some a =>
      match collectFolders rest with
      | none => none
      | some b => some (a ++ b)

/-- Embedding of `get_hash_folders` (`folder.rs` lines 78-95). -/
def get_hash_folders (D : DigestPrim) (fs : FS) (walks : List (List WalkResult))
    (h : HashState) (num_threads : Nat) :
    Option (Except IOErr String × HashState × List ProgressInfo) :=
  match collectFolders walks with
  | none => none
  | some paths => some (get_hash_files D fs paths h num_threads)

/-- The content of a read script when reading completes without error:
the bytes of the chunks up to the first EOF (empty chunk or script end);
`none` when a read error occurs first. -/
def readsContent : List ReadStep → Option (List Nat)
  | [] => some []
  | ReadStep.chunk bs :: rest =>
    if bs = [] then some [] else (readsContent rest).map (bs ++ ·)
  | ReadStep.readErr _ :: _ => none

/-- The content of a file whose open and reads all succeed; `none` when the
open or some read before EOF fails. -/
def fileContent : FileModel → Option (List Nat)
  | FileModel.openErr _ => none
  | FileModel.reads rs => readsContent rs

/-- The bytes a read script feeds into the accumulator before a read error
stops it (meaningful when `readsContent` is `none` on a `reads` file). -/
def bytesBeforeErr : List ReadStep → List Nat
  | [] => []
  | ReadStep.chunk bs :: rest => if bs = [] then [] else bs ++ bytesBeforeErr rest
  | ReadStep.readErr _ :: _ => []

/-- The first read error a script hits before EOF; `none` when reading
completes without error. -/
def readsErr : List ReadStep → Option IOErr
  | [] => none
  | ReadStep.chunk bs :: rest => if bs = [] then none else readsErr rest
  | ReadStep.readErr e :: _ => some e

/-- The error with which a per-file job fails on this file, if any: the open
error, or the first read error before EOF. -/
def jobErr : FileModel → Option IOErr
  | FileModel.openErr e => some e
  | FileModel.reads rs => readsErr rs

/-- The bytes a failing per-file job leaves in the shared accumulator: none
for an open failure, the successfully read chunks for a mid-stream read
failure. -/
def bytesFedOnErr : FileModel → List Nat
  | FileModel.openErr _ => []
  | FileModel.reads rs => bytesBeforeErr rs

/-- Spec-side definition (claim C1's words): the purely sequential
single-threaded fold — for each path in list order, fold that file's content
into the shared state and then the hex digest the single-file hasher returns
for it. -/
def seqFoldSpec (D : DigestPrim) (content : Path → List Nat) (paths : List Path)
    (h : HashState) : HashState :=
  paths.foldl (fun acc p =>
    let acc1 := update acc (content p)
    update acc1 (strBytes (get_lowerhex D acc1))) h

/-- Spec-side definition (claim C9's words): exactly the regular files among
the successfully yielded entries, in traversal order; entries that error
during traversal are dropped. -/
def specCollect (walk : List WalkResult) : List Path :=
  walk.filterMap (fun r =>
    match r with
    | Except.error _ => none
    | Except.ok entry =>
      match entry.meta with
      | Except.ok k => if k.is_file then some entry.path else none
      | Except.error _ => none)

/-- Whether a walk item avoids the `metadata().unwrap()` panic: traversal
errors are filtered out before the unwrap, and a yielded entry must have a
successful metadata query. -/
def metaOk : WalkResult → Bool
  | Except.error _ => true
  | Except.ok entry =>
    match entry.meta with
    | Except.ok _ => true
    | Except.error _ => false

/-- Discriminator for `ProgressInfo::Yield`. -/
def ProgressInfo.isYield : ProgressInfo → Bool
  | ProgressInfo.Yield _ => true
  | _ => false

/-- Discriminator for `ProgressInfo::Error`. -/
def ProgressInfo.isFail : ProgressInfo → Bool
  | ProgressInfo.Error _ => true
  | _ => false

/-- The identity digest primitive, a concrete instance for witnesses. -/
def idDigest : DigestPrim := ⟨fun bs => bs⟩

/-- Concrete filesystem where every path is a readable file with content
`[1, 2]`, delivered in one chunk followed by EOF. -/
def fsW : FS := fun _ => FileModel.reads [ReadStep.chunk [1, 2], ReadStep.chunk []]

/-- The content function matching `fsW`. -/
def contentW : Path → List Nat := fun _ => [1, 2]

/-- Concrete filesystem where path 0 is readable with content `[1, 2]` and
every other path reads one chunk `[3]` and then fails mid-stream. -/
def fsC : FS := fun p =>
  if p = 0 then FileModel.reads [ReadStep.chunk [1, 2], ReadStep.chunk []]
  else FileModel.reads [ReadStep.chunk [3], ReadStep.readErr (IOErr.other 0)]

/-- Concrete filesystem where path 0 is readable with content `[1, 2]` and
every other path fails at open with permission denied. -/
def fsO : FS := fun p =>
  if p = 0 then FileModel.reads [ReadStep.chunk [1, 2], ReadStep.chunk []]
  else FileModel.openErr IOErr.permissionDenied

/-- Concrete walk: one traversal error, one regular file at path 5, one
directory at path 6, all metadata queries succeeding. -/
def walkW : List WalkResult :=
  [Except.error IOErr.notFound,
   Except.ok ⟨5, Except.ok FileKind.regular⟩,
   Except.ok ⟨6, Except.ok FileKind.directory⟩]

/-- Concrete walk whose single entry is yielded successfully but whose
metadata query fails (e.g. the file was deleted between the walk and the
query). -/
def walkBad : List WalkResult := [Except.ok ⟨0, Except.error IOErr.notFound⟩]

/-! ### Helper lemmas -/

lemma readLoop_content (D : DigestPrim) (rs : List ReadStep) (C : List Nat) (h : HashState)
    (hC : readsContent rs = some C) :
    readLoop D rs h = (Except.ok (get_lowerhex D (update h C)), update h C) := by
  induction rs generalizing C h with
  | nil =>
    simp only [readsContent, Option.some.injEq] at hC
    subst hC
    simp [readLoop, update]
  | cons step rest ih =>
    cases step with
    | chunk bs =>
      by_cases hbs : bs = []
      · subst hbs
        simp [readsContent] at hC
        subst hC
        simp [readLoop, update]
      · simp only [readsContent, if_neg hbs, Option.map_eq_some'] at hC
        obtain ⟨C', hC', rfl⟩ := hC
        simp only [readLoop, if_neg hbs]
        rw [ih C' (update h bs) hC']
        simp [update, List.append_assoc]
    | readErr e => simp [readsContent] at hC

lemma readLoop_err (D : DigestPrim) (rs : List ReadStep) (e : IOErr) (h : HashState)
    (he : readsErr rs = some e) :
    readLoop D rs h = (Except.error e, update h (bytesBeforeErr rs)) := by
  induction rs generalizing h with
  | nil => simp [readsErr] at he
  | cons step rest ih =>
    cases step with
    | chunk bs =>
      by_cases hbs : bs = []
      · simp [readsErr, hbs] at he
      · simp only [readsErr, if_neg hbs] at he
        simp only [readLoop, if_neg hbs, bytesBeforeErr, if_neg hbs]
        rw [ih (update h bs) he]
        simp [update, List.append_assoc]
    | readErr e' =>
      simp only [readsErr, Option.some.injEq] at he
      subst he
      simp [readLoop, bytesBeforeErr, update]

lemma runJob_ok (D : DigestPrim) (f : FileModel) (C : List Nat) (h : HashState)
    (hC : fileContent f = some C) :
    runJob D f h
      = (Except.ok (), update (update h C) (strBytes (get_lowerhex D (update h C)))) := by
  cases f with
  | openErr e => simp [fileContent] at hC
  | reads rs =>
    simp only [fileContent] at hC
    simp only [runJob, get_hash_file, readLoop_content D rs C h hC]

lemma runJob_err (D : DigestPrim) (f : FileModel) (e : IOErr) (h : HashState)
    (he : jobErr f = some e) :
    runJob D f h = (Except.error e, update h (bytesFedOnErr f)) := by
  cases f with
  | openErr e' =>
    simp only [jobErr, Option.some.injEq] at he
    subst he
    simp [runJob, get_hash_file, bytesFedOnErr, update]
  | reads rs =>
    simp only [jobErr] at he
    simp only [runJob, get_hash_file, readLoop_err D rs e h he, bytesFedOnErr]

lemma runJobs_append (D : DigestPrim) (fs : FS) (l1 l2 : List Path) (h : HashState) :
    runJobs D fs (l1 ++ l2) h
      = ((runJobs D fs l1 h).1 ++ (runJobs D fs l2 (runJobs D fs l1 h).2).1,
         (runJobs D fs l2 (runJobs D fs l1 h).2).2) := by
  induction l1 generalizing h with
  | nil => simp [runJobs]
  | cons p rest ih => simp [runJobs, ih]

lemma runJobs_all_ok (D : DigestPrim) (fs : FS) (content : Path → List Nat)
    (paths : List Path) (h : HashState)
    (hc : ∀ p ∈ paths, fileContent (fs p) = some (content p)) :
    runJobs D fs paths h
      = (paths.map (fun _ => Except.ok ()), seqFoldSpec D content paths h) := by
  induction paths generalizing h with
  | nil => simp [runJobs, seqFoldSpec]
  | cons p rest ih =>
    have hp : fileContent (fs p) = some (content p) := hc p (by simp)
    have hrest : ∀ q ∈ rest, fileContent (fs q) = some (content q) :=
      fun q hq => hc q (by simp [hq])
    simp only [runJobs, runJob_ok D (fs p) (content p) h hp, ih _ hrest,
      seqFoldSpec, List.foldl_cons, List.map_cons]

lemma progressLoop_all_ok (js : List (Except IOErr Unit)) (d : Nat)
    (hjs : ∀ j ∈ js, j = Except.ok ()) :
    progressLoop js d = (List.range js.length).map (fun i => ProgressInfo.Yield (i + d + 1)) := by
  induction js generalizing d with
  | nil => simp [progressLoop]
  | cons j rest ih =>
    have hj : j = Except.ok () := hjs j (by simp)
    subst hj
    have hrest : ∀ j ∈ rest, j = Except.ok () := fun j hj => hjs j (by simp [hj])
    rw [show progressLoop (Except.ok () :: rest) d
        = ProgressInfo.Yield (d + 1) :: progressLoop rest (d + 1) from rfl,
      ih (d + 1) hrest, List.length_cons, List.range_succ_eq_map, List.map_cons,
      List.map_map]
    congr 1
    · congr 1
      omega
    · apply List.map_congr_left
      intro i _
      simp only [Function.comp_apply]
      congr 1
      omega

lemma progressLoop_length (js : List (Except IOErr Unit)) (d : Nat) :
    (progressLoop js d).length = js.length := by
  induction js generalizing d with
  | nil => rfl
  | cons j rest ih => simp [progressLoop, ih]

lemma progressLoop_countP_fail (js : List (Except IOErr Unit)) (d : Nat) :
    (progressLoop js d).countP ProgressInfo.isFail
      = js.countP (fun j => match j with | Except.error _ => true | Except.ok _ => false) := by
  induction js generalizing d with
  | nil => rfl
  | cons j rest ih =>
    cases j <;>
      simp [progressLoop, List.countP_cons, ih, ProgressInfo.isFail]

lemma progressLoop_countP_yield (js : List (Except IOErr Unit)) (d : Nat) :
    (progressLoop js d).countP ProgressInfo.isYield
      = js.countP (fun j => match j with | Except.error _ => false | Except.ok _ => true) := by
  induction js generalizing d with
  | nil => rfl
  | cons j rest ih =>
    cases j <;>
      simp [progressLoop, List.countP_cons, ih, ProgressInfo.isYield]

lemma get_hash_files_ne_nil (D : DigestPrim) (fs : FS) (paths : List Path) (h : HashState)
    (n : Nat) (hne : paths ≠ []) :
    get_hash_files D fs paths h n
      = (Except.ok (get_lowerhex D (runJobs D fs paths h).2),
         (runJobs D fs paths h).2,
         progressLoop (runJobs D fs paths h).1 0) := by
  simp [get_hash_files, hne]

lemma readsContent_chunks (chunks : List (List Nat)) (hne : ∀ c ∈ chunks, c ≠ []) :
    readsContent (chunks.map ReadStep.chunk ++ [ReadStep.chunk []])
      = some chunks.flatten := by
  induction chunks with
  | nil => rfl
  | cons c rest ih =>
    have hc : c ≠ [] := hne c (by simp)
    have hrest : ∀ x ∈ rest, x ≠ [] := fun x hx => hne x (by simp [hx])
    simp only [List.map_cons, List.cons_append, readsContent, if_neg hc, List.append_eq,
      ih hrest, Option.map_some', List.flatten_cons]

lemma countP_replicate {α : Type} (p : α → Bool) (m : Nat) (a : α) :
    List.countP p (List.replicate m a) = if p a then m else 0 := by
  induction m with
  | zero => simp
  | succ m ih =>
    by_cases hpa : p a <;> simp [List.replicate_succ, List.countP_cons, ih, hpa]

lemma get_hash_files_trace (D : DigestPrim) (fs : FS) (paths : List Path)
    (h : HashState) (n : Nat) (hne : paths ≠ []) :
    (get_hash_files D fs paths h n).2.2 = progressLoop (runJobs D fs paths h).1 0 := by
  rw [get_hash_files_ne_nil D fs paths h n hne]

lemma get_hash_files_state (D : DigestPrim) (fs : FS) (paths : List Path)
    (h : HashState) (n : Nat) (hne : paths ≠ []) :
    (get_hash_files D fs paths h n).2.1 = (runJobs D fs paths h).2 := by
  rw [get_hash_files_ne_nil D fs paths h n hne]

lemma get_hash_files_result (D : DigestPrim) (fs : FS) (paths : List Path)
    (h : HashState) (n : Nat) (hne : paths ≠ []) :
    (get_hash_files D fs paths h n).1
      = Except.ok (get_lowerhex D ((get_hash_files D fs paths h n).2.1)) := by
  rw [get_hash_files_ne_nil D fs paths h n hne]

/-! ### Claim theorems -/

/-- C1: `get_hash_files` executes the per-file jobs one at a time in list
order (`pool.install` runs each closure to completion before the next
iteration), so the bytes folded into the shared hash state are exactly, for
each path in list order, that file's content followed by its hex digest; the
final digest equals the purely sequential single-threaded fold
(`seqFoldSpec`) and is identical for every worker count. -/
theorem c1_sequential_fold (D : DigestPrim) (fs : FS) (paths : List Path)
    (h : HashState) (content : Path → List Nat)
    (hc : ∀ p ∈ paths, fileContent (fs p) = some (content p)) :
    (∀ n₁ n₂ : Nat, get_hash_files D fs paths h n₁ = get_hash_files D fs paths h n₂)
    ∧ ∀ n : Nat, paths ≠ [] →
        (get_hash_files D fs paths h n).2.1 = seqFoldSpec D content paths h
        ∧ (get_hash_files D fs paths h n).1
            = Except.ok (get_lowerhex D (seqFoldSpec D content paths h)) := by
  refine ⟨fun n₁ n₂ => rfl, fun n hne => ?_⟩
  rw [get_hash_files_ne_nil D fs paths h n hne, runJobs_all_ok D fs content paths h hc]
  exact ⟨rfl, rfl⟩

/-- Witness for C1 at a concrete input. -/
theorem c1_witness :
    (∀ p ∈ ([0] : List Path), fileContent (fsW p) = some (contentW p))
    ∧ (get_hash_files idDigest fsW [0] [] 3).2.1 = seqFoldSpec idDigest contentW [0] []
    ∧ (get_hash_files idDigest fsW [0] [] 3).1
        = Except.ok (get_lowerhex idDigest (seqFoldSpec idDigest contentW [0] [])) :=
  ⟨by decide,
   (c1_sequential_fold idDigest fsW [0] [] contentW (by decide)).2 3 (by decide)⟩

/-- C2: on an empty path list `get_hash_files` fails with `InvalidInput`,
invokes no progress callback and leaves the accumulator untouched; the same
holds for `get_hash_folder` when the collected file list is empty. -/
theorem c2_empty_invalid_input (D : DigestPrim) (fs : FS) (h : HashState) (n : Nat)
    (walk : List WalkResult) (hw : get_all_file_from_folder walk = some []) :
    get_hash_files D fs [] h n = (Except.error IOErr.invalidInput, h, [])
    ∧ get_hash_folder D fs walk h n
        = some (Except.error IOErr.invalidInput, h, []) := by
  constructor
  · rfl
  · simp only [get_hash_folder, hw]
    rfl

/-- Witness for C2 at a concrete input. -/
theorem c2_witness :
    get_all_file_from_folder [] = some []
    ∧ get_hash_files idDigest fsW [] [] 2 = (Except.error IOErr.invalidInput, [], [])
    ∧ get_hash_folder idDigest fsW [] [] 2
        = some (Except.error IOErr.invalidInput, [], []) :=
  ⟨rfl, c2_empty_invalid_input idDigest fsW [] 2 [] rfl⟩

/-- C3: reading and feeding a file in chunks is equivalent to one
`update` of the whole content: for any chunk decomposition (all chunks
nonempty, then EOF) `get_hash_file` returns the hex digest of the
accumulator fed with the concatenated content, independent of chunk size. -/
theorem c3_chunked_equals_single_update (D : DigestPrim) (chunks : List (List Nat))
    (h : HashState) (hne : ∀ c ∈ chunks, c ≠ []) :
    get_hash_file D (FileModel.reads (chunks.map ReadStep.chunk ++ [ReadStep.chunk []])) h
      = (Except.ok (get_lowerhex D (update h chunks.flatten)), update h chunks.flatten) := by
  simp only [get_hash_file]
  exact readLoop_content D _ chunks.flatten h (readsContent_chunks chunks hne)

/-- Witness for C3 at a concrete input. -/
theorem c3_witness :
    (∀ c ∈ [[1], [2, 3]], c ≠ ([] : List Nat))
    ∧ get_hash_file idDigest
        (FileModel.reads ([[1], [2, 3]].map ReadStep.chunk ++ [ReadStep.chunk []])) []
      = (Except.ok (get_lowerhex idDigest (update [] [[1], [2, 3]].flatten)),
         update [] [[1], [2, 3]].flatten) :=
  ⟨by decide, c3_chunked_equals_single_update idDigest [[1], [2, 3]] [] (by decide)⟩

/-- C7: `get_lowerhex` produces the lowercase-hex digest of the current state
from a cloned snapshot without altering the accumulator: the object behind
the `&mut` reference is unchanged by the call and subsequent `update` calls
behave as if `get_lowerhex` had never been called. -/
theorem c7_lowerhex_preserves_state (D : DigestPrim) (h : HashState) (bs : List Nat) :
    (get_lowerhex_call D h).2 = h
    ∧ update (get_lowerhex_call D h).2 bs = update h bs
    ∧ (get_lowerhex_call D h).1 = hexLower (D.digest h) :=
  ⟨rfl, rfl, rfl⟩

/-- C8: with a single worker, `get_hash_files` is deterministic — two runs
with the same files, path list and initial hash state produce the same
result. -/
theorem c8_single_worker_deterministic (D : DigestPrim) (fs1 fs2 : FS)
    (paths1 paths2 : List Path) (h1 h2 : HashState)
    (hfs : ∀ p, fs1 p = fs2 p) (hp : paths1 = paths2) (hh : h1 = h2) :
    get_hash_files D fs1 paths1 h1 1 = get_hash_files D fs2 paths2 h2 1 := by
  have hf : fs1 = fs2 := funext hfs
  subst hf
  subst hp
  subst hh
  rfl

/-- Witness for C8 at a concrete input. -/
theorem c8_witness :
    (∀ p, fsW p = fsW p)
    ∧ get_hash_files idDigest fsW [0] [] 1 = get_hash_files idDigest fsW [0] [] 1 :=
  ⟨fun _ => rfl,
   c8_single_worker_deterministic idDigest fsW fsW [0] [0] [] [] (fun _ => rfl) rfl rfl⟩

/-- C4: when all N files hash successfully, the progress callback receives
exactly N `Yield` events carrying the counts 1 through N in strictly
increasing submission order, with no gaps, no duplicates and no `Error`
events. -/
theorem c4_progress_yield_sequence (D : DigestPrim) (fs : FS) (paths : List Path)
    (h : HashState) (n : Nat) (content : Path → List Nat)
    (hc : ∀ p ∈ paths, fileContent (fs p) = some (content p)) :
    (get_hash_files D fs paths h n).2.2
      = (List.range paths.length).map (fun i => ProgressInfo.Yield (i + 1)) := by
  by_cases hne : paths = []
  · subst hne
    rfl
  · rw [get_hash_files_trace D fs paths h n hne, runJobs_all_ok D fs content paths h hc,
      progressLoop_all_ok _ 0
        (fun j hj => by rcases List.mem_map.1 hj with ⟨a, ha, rfl⟩; rfl)]
    simp

/-- Witness for C4 at a concrete input. -/
theorem c4_witness :
    (∀ p ∈ ([0, 0] : List Path), fileContent (fsW p) = some (contentW p))
    ∧ (get_hash_files idDigest fsW [0, 0] [] 2).2.2
        = (List.range 2).map (fun i => ProgressInfo.Yield (i + 1)) :=
  ⟨by decide, c4_progress_yield_sequence idDigest fsW [0, 0] [] 2 contentW (by decide)⟩

/-- C5: when exactly one of the paths fails and all others succeed,
`get_hash_files` emits exactly one `Error` event and N-1 `Yield` events,
does not abort the batch, and still returns `Ok` with the hex digest of the
final hash state. -/
theorem c5_single_failure (D : DigestPrim) (fs : FS) (pre post : List Path) (bad : Path)
    (h : HashState) (n : Nat) (content : Path → List Nat) (e : IOErr)
    (hc : ∀ p ∈ pre ++ post, fileContent (fs p) = some (content p))
    (hb : jobErr (fs bad) = some e) :
    ((get_hash_files D fs (pre ++ bad :: post) h n).2.2).countP ProgressInfo.isFail = 1
    ∧ ((get_hash_files D fs (pre ++ bad :: post) h n).2.2).countP ProgressInfo.isYield
        = pre.length + post.length
    ∧ (get_hash_files D fs (pre ++ bad :: post) h n).1
        = Except.ok (get_lowerhex D ((get_hash_files D fs (pre ++ bad :: post) h n).2.1)) := by
  have hne : pre ++ bad :: post ≠ [] := by simp
  have hpre : ∀ p ∈ pre, fileContent (fs p) = some (content p) :=
    fun p hp => hc p (by simp [hp])
  have hpost : ∀ p ∈ post, fileContent (fs p) = some (content p) :=
    fun p hp => hc p (by simp [hp])
  have hjobs : (runJobs D fs (pre ++ bad :: post) h).1
      = pre.map (fun _ => Except.ok ())
          ++ Except.error e :: post.map (fun _ => Except.ok ()) := by
    rw [runJobs_append, runJobs_all_ok D fs content pre h hpre]
    simp only [runJobs, runJob_err D (fs bad) e _ hb]
    rw [runJobs_all_ok D fs content post _ hpost]
  refine ⟨?_, ?_, get_hash_files_result D fs _ h n hne⟩
  · rw [get_hash_files_trace D fs _ h n hne, hjobs, progressLoop_countP_fail]
    simp [List.countP_append, List.countP_cons, countP_replicate]
  · rw [get_hash_files_trace D fs _ h n hne, hjobs, progressLoop_countP_yield]
    simp [List.countP_append, List.countP_cons, countP_replicate]

/-- Witness for C5 at a concrete input. -/
theorem c5_witness :
    (∀ p ∈ ([0] ++ [] : List Path), fileContent (fsC p) = some (contentW p))
    ∧ jobErr (fsC 1) = some (IOErr.other 0)
    ∧ ((get_hash_files idDigest fsC ([0] ++ 1 :: []) [] 1).2.2).countP ProgressInfo.isFail = 1
    ∧ ((get_hash_files idDigest fsC ([0] ++ 1 :: []) [] 1).2.2).countP ProgressInfo.isYield
        = [0].length + List.length ([] : List Path)
    ∧ (get_hash_files idDigest fsC ([0] ++ 1 :: []) [] 1).1
        = Except.ok (get_lowerhex idDigest
            ((get_hash_files idDigest fsC ([0] ++ 1 :: []) [] 1).2.1)) :=
  ⟨by decide, by decide,
   c5_single_failure idDigest fsC [0] [] 1 [] 1 contentW (IOErr.other 0)
     (by decide) (by decide)⟩

/-- C6 counterexample: the claim fails on the code for a mid-stream read
failure — with `fsC`, path 1 reads the chunk `[3]` and then fails, and the
accumulator after the batch differs from the accumulator obtained when that
file is omitted from the list: the already-read chunk stays folded in. -/
theorem c6_counterexample :
    ¬ ((get_hash_files idDigest fsC [0, 1] [] 1).2.1
        = (get_hash_files idDigest fsC [0] [] 1).2.1) := by
  decide

/-- C6 (amended): a file whose hashing fails contributes exactly the bytes
read before the failure to the cumulative hash (and never its hex digest);
in particular when the failure happens at open — before any byte is read —
the accumulator is exactly as if the file had been omitted from the list. -/
theorem c6_failed_file_contribution (D : DigestPrim) (fs : FS) (pre post : List Path)
    (bad : Path) (h : HashState) (n : Nat) (e : IOErr)
    (hb : jobErr (fs bad) = some e) :
    (get_hash_files D fs (pre ++ bad :: post) h n).2.1
      = (runJobs D fs post (update (runJobs D fs pre h).2 (bytesFedOnErr (fs bad)))).2
    ∧ (bytesFedOnErr (fs bad) = [] →
        (get_hash_files D fs (pre ++ bad :: post) h n).2.1
          = (get_hash_files D fs (pre ++ post) h n).2.1) := by
  have hne : pre ++ bad :: post ≠ [] := by simp
  have hstate : (get_hash_files D fs (pre ++ bad :: post) h n).2.1
      = (runJobs D fs post (update (runJobs D fs pre h).2 (bytesFedOnErr (fs bad)))).2 := by
    rw [get_hash_files_state D fs _ h n hne, runJobs_append]
    simp only [runJobs, runJob_err D (fs bad) e _ hb]
  refine ⟨hstate, fun hz => ?_⟩
  rw [hstate, hz]
  by_cases hpp : pre ++ post = []
  · rcases List.append_eq_nil.1 hpp with ⟨hp1, hp2⟩
    subst hp1
    subst hp2
    simp [get_hash_files, runJobs, update]
  · rw [get_hash_files_state D fs _ h n hpp, runJobs_append]
    simp [update]

/-- Witness for the amended C6 at a concrete input (an open failure). -/
theorem c6_witness :
    jobErr (fsO 1) = some IOErr.permissionDenied
    ∧ (get_hash_files idDigest fsO ([0] ++ 1 :: []) [] 1).2.1
        = (runJobs idDigest fsO []
            (update (runJobs idDigest fsO [0] []).2 (bytesFedOnErr (fsO 1)))).2
    ∧ (bytesFedOnErr (fsO 1) = [] →
        (get_hash_files idDigest fsO ([0] ++ 1 :: []) [] 1).2.1
          = (get_hash_files idDigest fsO ([0] ++ []) [] 1).2.1) :=
  ⟨by decide,
   c6_failed_file_contribution idDigest fsO [0] [] 1 [] 1 IOErr.permissionDenied
     (by decide)⟩

/-- C9: when every successfully yielded entry's metadata query succeeds, the
collector returns exactly the regular files among the yielded entries, in
traversal order; entries that error during traversal are silently dropped
and never surfaced. -/
theorem c9_collector_regular_files (walk : List WalkResult)
    (hm : ∀ r ∈ walk, metaOk r = true) :
    get_all_file_from_folder walk = some (specCollect walk) := by
  induction walk with
  | nil => rfl
  | cons r rest ih =>
    have hrest : ∀ q ∈ rest, metaOk q = true := fun q hq => hm q (by simp [hq])
    cases r with
    | error e =>
      simpa [get_all_file_from_folder, specCollect] using ih hrest
    | ok entry =>
      have hr : metaOk (Except.ok entry) = true := hm _ (by simp)
      cases hmeta : entry.meta with
      | error e2 => simp [metaOk, hmeta] at hr
      | ok k =>
        simp only [get_all_file_from_folder, hmeta, ih hrest, specCollect,
          List.filterMap_cons]
        cases hk : k.is_file <;> simp [hk]

/-- Witness for C9 at a concrete input. -/
theorem c9_witness :
    (∀ r ∈ walkW, metaOk r = true)
    ∧ get_all_file_from_folder walkW = some (specCollect walkW) :=
  ⟨by decide, c9_collector_regular_files walkW (by decide)⟩

/-- C10: there is an input on which `get_all_file_from_folder` (and hence
`get_hash_folder` and `get_hash_folders`) panics instead of skipping: a walk
entry yielded successfully whose subsequent metadata query fails hits the
`.unwrap()` and aborts the collection. -/
theorem c10_metadata_unwrap_panics :
    get_all_file_from_folder walkBad = none
    ∧ get_hash_folder idDigest fsW walkBad [] 1 = none
    ∧ get_hash_folders idDigest fsW [walkBad] [] 1 = none :=
  ⟨rfl, rfl, rfl⟩

end FileHashing
